import Mathlib

/-!
Verification of the simple-broadcaster library (src/lib.rs).

The Rust source is shallowly embedded as follows.

The mpsc sync_channel(10) substrate is modelled by a pending-message list
(the channel buffer, capacity 10) together with Booleans saying whether the
peer half is still alive.  A blocking call that would suspend is modelled
by the value none; a call that returns is modelled by some of its result.

The hub (BroadcasterInner) is a record of the hub name, the last issued
UniqueId and the registered sender list, exactly as in the source.  The
whole multi-handle system is a state Sys: the hub, the number of live
Broadcaster handles and the receiver ids of the live Subscriber handles.
Public API calls are an operation language Op executed by Sys.exec; a
trace of calls is executed by Sys.execTrace.
-/

namespace SimpleBroadcaster

/-- UniqueId from the source: a newtype over a u64 counter.  Ids stay far
below 2^64 in any execution we model (one increment per registration), so
Nat arithmetic is faithful. -/
structure UniqueId where
  val : Nat
deriving DecidableEq, Repr

/-- UniqueId::new in the source returns Self(1). -/
def UniqueId.new : UniqueId := ⟨1⟩

/-- UniqueId::next in the source returns Self(self.0 + 1). -/
def UniqueId.next (u : UniqueId) : UniqueId := ⟨u.val + 1⟩

/-- The Clone impl for UniqueId in the source returns self.next(), not a
copy of self. -/
def UniqueId.clone (u : UniqueId) : UniqueId := u.next

/-- std::sync::mpsc::TryRecvError. -/
inductive TryRecvError where
  | Empty
  | Disconnected
deriving DecidableEq, Repr

/-- The public error enum of the library.  RecvError carries no data in
std (a unit struct), SendError carries the unsent message. -/
inductive Error (T : Type) where
  | NoReceiver
  | RecvError
  | SendError (msg : T)
  | TryRecvError (e : TryRecvError)
deriving DecidableEq, Repr

/-- Capacity of every channel created by the library: sync_channel(10). -/
def channelCapacity : Nat := 10

/-- Behaviour of mpsc Receiver::try_recv as a function of the pending
buffer and of whether the sender half is still alive: a pending message is
returned even after the sender is gone; Disconnected is reported only when
the buffer is empty and the sender has been dropped. -/
def mpscTryRecv (T : Type) (q : List T) (senderAlive : Bool) :
    Except TryRecvError (T × List T) :=
  match q with
  | x :: rest => .ok (x, rest)
  | [] => if senderAlive then .error .Empty else .error .Disconnected

/-- Behaviour of mpsc Receiver::recv: none models a call that blocks
(buffer empty, sender still alive); the error case is the unit struct
mpsc::RecvError. -/
def mpscRecv (T : Type) (q : List T) (senderAlive : Bool) :
    Option (Except Unit (T × List T)) :=
  match q with
  | x :: rest => some (.ok (x, rest))
  | [] => if senderAlive then none else some (.error ())

/-- Subscriber::try_recv: delegates to the receiver half and converts the
mpsc error through the From impl into Error::TryRecvError. -/
def Subscriber.try_recv (T : Type) (q : List T) (senderAlive : Bool) :
    Except (Error T) (T × List T) :=
  match mpscTryRecv T q senderAlive with
  | .ok r => .ok r
  | .error e => .error (.TryRecvError e)

/-- Subscriber::recv: delegates to the receiver half and converts the mpsc
error through the From impl into Error::RecvError; none models blocking. -/
def Subscriber.recv (T : Type) (q : List T) (senderAlive : Bool) :
    Option (Except (Error T) (T × List T)) :=
  match mpscRecv T q senderAlive with
  | some (.ok r) => some (.ok r)
  | some (.error _) => some (.error .RecvError)
  | none => none

/-- MpscSyncSender from the source: the sender half kept in the hub
registry.  The shared channel buffer is stored here (the receiver half
reads the same buffer). -/
structure MpscSyncSender (T : Type) where
  id : UniqueId
  queue : List T
deriving DecidableEq, Repr

/-- MpscReceiver from the source: the receiver half handed to a
subscriber; it reads the buffer of the registry entry with the same id. -/
structure MpscReceiver where
  id : UniqueId
deriving DecidableEq, Repr

/-- BroadcasterInner from the source: hub name, last issued id and the
registered sender list, in registration order. -/
structure BroadcasterInner (T : Type) where
  name : String
  last_id : UniqueId
  senders : List (MpscSyncSender T)
deriving DecidableEq, Repr

/-- One send on a sync_channel(10) sender: fails immediately when the
receiver half was dropped, blocks (none) when the buffer is full,
otherwise appends the message to the buffer. -/
def sendTo (T : Type) (alive : Bool) (q : List T) (m : T) :
    Option (Except Unit (List T)) :=
  if alive then
    if q.length < channelCapacity then some (.ok (q ++ [m])) else none
  else some (.error ())

/-- The fan-out loop of BroadcasterInner::broadcast over the sender list:
each failed send is logged (its sender id is collected) and iteration
continues; a send that would block makes the whole call block (none). -/
def broadcastAux (T : Type) (alive : UniqueId → Bool) (m : T) :
    List (MpscSyncSender T) → Option (List (MpscSyncSender T) × List UniqueId)
  | [] => some ([], [])
  | c :: rest =>
    match sendTo T (alive c.id) c.queue m, broadcastAux T alive m rest with
    | some (.ok q2), some (l, lg) => some ({ c with queue := q2 } :: l, lg)
    | some (.error _), some (l, lg) => some (c :: l, c.id :: lg)
    | _, _ => none

/-- BroadcasterInner::broadcast: iterate every registered sender and send
the message; returns the updated hub and the ids whose send failed (the
warn log).  There is no error in the return type: the caller is never told
about per-endpoint failures. -/
def BroadcasterInner.broadcast (T : Type) (inner : BroadcasterInner T)
    (alive : UniqueId → Bool) (m : T) :
    Option (BroadcasterInner T × List UniqueId) :=
  (broadcastAux T alive m inner.senders).map
    (fun p => ({ inner with senders := p.1 }, p.2))

/-- BroadcasterInner::add_receiver: create a fresh sync_channel(10) pair,
advance last_id, push the sender half at the end of the registry and
return the receiver half with the same id. -/
def BroadcasterInner.add_receiver (T : Type) (inner : BroadcasterInner T) :
    BroadcasterInner T × MpscReceiver :=
  let newId := inner.last_id.next
  ({ inner with last_id := newId, senders := inner.senders ++ [⟨newId, []⟩] },
   ⟨newId⟩)

/-- Broadcaster handle: its name; the shared hub lives in the system
state. -/
structure Broadcaster where
  name : String
deriving DecidableEq, Repr

/-- Subscriber handle: its name and its exclusively owned receiver half;
the shared hub lives in the system state. -/
structure Subscriber where
  name : String
  receiver : MpscReceiver
deriving DecidableEq, Repr

/-- The factory broadcasting_channel: builds the hub with one registered
channel pair (id UniqueId::new, since UniqueId is Copy the three uses of
last_id are plain copies) and returns the hub together with the two
handles, both named by the literal initial. -/
def broadcasting_channel (T : Type) (name : String) :
    BroadcasterInner T × Broadcaster × Subscriber :=
  let last_id := UniqueId.new
  ({ name := name, last_id := last_id, senders := [⟨last_id, []⟩] },
   { name := "initial" },
   { name := "initial", receiver := ⟨last_id⟩ })

/-- Whole-system state: the hub plus the live handles referencing it.
pubCount counts live Broadcaster handles; subs lists the receiver ids of
the live Subscriber handles, each of which holds an Arc to the hub. -/
structure Sys (T : Type) where
  inner : BroadcasterInner T
  pubCount : Nat
  subs : List UniqueId
deriving DecidableEq, Repr

/-- The Arc-backed hub is deallocated only when no handle references it;
the sender halves stored in its registry are alive exactly as long as the
hub is. -/
def Sys.hubAlive (T : Type) (s : Sys T) : Bool :=
  decide (s.pubCount ≠ 0 ∨ s.subs ≠ [])

/-- The receiver half of channel i is alive iff some live subscriber owns
it. -/
def Sys.receiverAlive (T : Type) (s : Sys T) (i : UniqueId) : Bool :=
  decide (i ∈ s.subs)

/-- The channel buffer of registry entry i, when registered. -/
def Sys.queueOf (T : Type) (s : Sys T) (i : UniqueId) : Option (List T) :=
  (s.inner.senders.find? (fun c => decide (c.id = i))).map (fun c => c.queue)

/-- Replace the buffer of registry entry i (the effect of the receiver
popping a message from the shared channel). -/
def setQueue (T : Type) (l : List (MpscSyncSender T)) (i : UniqueId)
    (q : List T) : List (MpscSyncSender T) :=
  l.map (fun c => if c.id = i then { c with queue := q } else c)

/-- The public API calls, addressed to live handles: subscriber calls name
the index j of the subscriber in the live-subscriber list. -/
inductive Op (T : Type) where
  | clonePub
  | dropPub
  | cloneSub (j : Nat)
  | dropSub (j : Nat)
  | broadcast (m : T)
  | tryRecv (j : Nat)
  | recv (j : Nat)
deriving DecidableEq, Repr

/-- The value a call hands back to its caller, when it returns one. -/
inductive CallResult (T : Type) where
  | msg (m : T)
  | err (e : Error T)
deriving DecidableEq, Repr

/-- Execute one public API call.  Calls addressed to a handle that does
not exist, and calls that block, return no result and (for the blocked
broadcast) leave the state unchanged. -/
def Sys.exec (T : Type) (s : Sys T) : Op T → Sys T × Option (CallResult T)
  | .clonePub => ({ s with pubCount := s.pubCount + 1 }, none)
  | .dropPub => ({ s with pubCount := s.pubCount - 1 }, none)
  | .cloneSub j =>
    if j < s.subs.length then
      let p := BroadcasterInner.add_receiver T s.inner
      ({ s with inner := p.1, subs := s.subs ++ [p.2.id] }, none)
    else (s, none)
  | .dropSub j => ({ s with subs := s.subs.eraseIdx j }, none)
  | .broadcast m =>
    if s.pubCount ≠ 0 then
      match BroadcasterInner.broadcast T s.inner (Sys.receiverAlive T s) m with
      | some p => ({ s with inner := p.1 }, none)
      | none => (s, none)
    else (s, none)
  | .tryRecv j =>
    if h : j < s.subs.length then
      match s.inner.senders.find? (fun c => decide (c.id = s.subs[j])) with
      | some c =>
        match Subscriber.try_recv T c.queue (Sys.hubAlive T s) with
        | .ok (x, rest) =>
          ({ s with inner :=
              { s.inner with senders := setQueue T s.inner.senders s.subs[j] rest } },
           some (.msg x))
        | .error e => (s, some (.err e))
      | none => (s, some (.err (.TryRecvError .Disconnected)))
    else (s, none)
  | .recv j =>
    if h : j < s.subs.length then
      match s.inner.senders.find? (fun c => decide (c.id = s.subs[j])) with
      | some c =>
        match Subscriber.recv T c.queue (Sys.hubAlive T s) with
        | some (.ok (x, rest)) =>
          ({ s with inner :=
              { s.inner with senders := setQueue T s.inner.senders s.subs[j] rest } },
           some (.msg x))
        | some (.error e) => (s, some (.err e))
        | none => (s, none)
      | none => (s, some (.err .RecvError))
    else (s, none)

/-- Execute a list of calls, collecting the returned results in order. -/
def Sys.execTrace (T : Type) (s : Sys T) :
    List (Op T) → Sys T × List (CallResult T)
  | [] => (s, [])
  | op :: rest =>
    let p := Sys.exec T s op
    let q := Sys.execTrace T p.1 rest
    (q.1, match p.2 with | some r => r :: q.2 | none => q.2)

/-- The system right after the factory call: one publisher handle, one
subscriber handle owning the sole registered channel. -/
def initSys (T : Type) (name : String) : Sys T :=
  let p := broadcasting_channel T name
  { inner := p.1, pubCount := 1, subs := [p.2.2.receiver.id] }

/-- The sender list after a fan-out in which no send blocked: every
sender whose receiver is alive gets the message appended, the rest are
untouched. -/
def pushAll (T : Type) (alive : UniqueId → Bool) (m : T)
    (l : List (MpscSyncSender T)) : List (MpscSyncSender T) :=
  l.map (fun c => if alive c.id then { c with queue := c.queue ++ [m] } else c)

/-- The ids whose send failed during a fan-out: exactly the senders whose
receiver half is gone, in registration order. -/
def failedIds (T : Type) (alive : UniqueId → Bool)
    (l : List (MpscSyncSender T)) : List UniqueId :=
  (l.filter (fun c => !alive c.id)).map (fun c => c.id)

theorem broadcastAux_room {T : Type} (alive : UniqueId → Bool) (m : T) :
    ∀ l : List (MpscSyncSender T),
      (∀ c ∈ l, alive c.id = true → c.queue.length < channelCapacity) →
      broadcastAux T alive m l = some (pushAll T alive m l, failedIds T alive l) := by
  intro l
  induction l with
  | nil => intro _; rfl
  | cons c rest ih =>
    intro h
    have hr := ih (fun d hd => h d (List.mem_cons_of_mem _ hd))
    cases hca : alive c.id with
    | true =>
      have hlen := h c (List.mem_cons_self _ _) hca
      simp [broadcastAux, sendTo, hca, hlen, hr, pushAll, failedIds]
    | false =>
      simp [broadcastAux, sendTo, hca, hr, pushAll, failedIds]

theorem pushAll_map_id {T : Type} (alive : UniqueId → Bool) (m : T)
    (l : List (MpscSyncSender T)) :
    (pushAll T alive m l).map (fun c => c.id) = l.map (fun c => c.id) := by
  simp only [pushAll, List.map_map]
  apply List.map_congr_left
  intro c _
  by_cases h : alive c.id <;> simp [h]

theorem setQueue_map_id {T : Type} (l : List (MpscSyncSender T))
    (i : UniqueId) (q : List T) :
    (setQueue T l i q).map (fun c => c.id) = l.map (fun c => c.id) := by
  simp only [setQueue, List.map_map]
  apply List.map_congr_left
  intro c _
  by_cases h : c.id = i <;> simp [h]

theorem broadcastAux_map_id {T : Type} (alive : UniqueId → Bool) (m : T) :
    ∀ (l l2 : List (MpscSyncSender T)) (lg : List UniqueId),
      broadcastAux T alive m l = some (l2, lg) →
      l2.map (fun c => c.id) = l.map (fun c => c.id) := by
  intro l
  induction l with
  | nil =>
    intro l2 lg h
    simp [broadcastAux] at h
    simp [h.1]
  | cons c rest ih =>
    intro l2 lg h
    simp only [broadcastAux] at h
    split at h
    · rename_i hs hb
      cases h
      simpa using ih _ _ hb
    · rename_i hs hb
      cases h
      simpa using ih _ _ hb
    · cases h

theorem find?_pushAll {T : Type} (alive : UniqueId → Bool) (m : T)
    (i : UniqueId) (l : List (MpscSyncSender T)) :
    (pushAll T alive m l).find? (fun c => decide (c.id = i)) =
      (l.find? (fun c => decide (c.id = i))).map
        (fun c => if alive c.id then { c with queue := c.queue ++ [m] } else c) := by
  induction l with
  | nil => rfl
  | cons c rest ih =>
    have hid : (if alive c.id then { c with queue := c.queue ++ [m] } else c).id = c.id := by
      by_cases h : alive c.id = true
      · rw [if_pos h]
      · rw [if_neg h]
    simp only [pushAll, List.map_cons, List.find?_cons, hid] at *
    by_cases hc : c.id = i
    · simp [hc]
    · simp only [decide_eq_false hc]
      exact ih

theorem find?_setQueue {T : Type} (l : List (MpscSyncSender T))
    (i : UniqueId) (q : List T) :
    (setQueue T l i q).find? (fun c => decide (c.id = i)) =
      (l.find? (fun c => decide (c.id = i))).map
        (fun c => if c.id = i then { c with queue := q } else c) := by
  induction l with
  | nil => rfl
  | cons c rest ih =>
    have hid : (if c.id = i then { c with queue := q } else c).id = c.id := by
      by_cases h : c.id = i
      · rw [if_pos h]
      · rw [if_neg h]
    simp only [setQueue, List.map_cons, List.find?_cons, hid] at *
    by_cases hc : c.id = i
    · simp [hc]
    · simp only [decide_eq_false hc]
      exact ih

theorem queueOf_eq_some {T : Type} {s : Sys T} {i : UniqueId} {q : List T}
    (h : Sys.queueOf T s i = some q) :
    ∃ c, s.inner.senders.find? (fun d => decide (d.id = i)) = some c ∧
      c.id = i ∧ c.queue = q := by
  rcases Option.map_eq_some'.mp h with ⟨c, hc, hq⟩
  have hp := @List.find?_some (MpscSyncSender T) (fun d => decide (d.id = i)) c
    s.inner.senders hc
  exact ⟨c, hc, of_decide_eq_true hp, hq⟩

theorem exec_broadcast_eq {T : Type} (s : Sys T) (m : T)
    (hpub : s.pubCount ≠ 0)
    (hroom : ∀ c ∈ s.inner.senders, Sys.receiverAlive T s c.id = true →
      c.queue.length < channelCapacity) :
    Sys.exec T s (Op.broadcast m) =
      ({ s with inner := { s.inner with
          senders := pushAll T (Sys.receiverAlive T s) m s.inner.senders } }, none) := by
  simp only [Sys.exec, BroadcasterInner.broadcast,
    broadcastAux_room (Sys.receiverAlive T s) m s.inner.senders hroom,
    Option.map_some', if_pos hpub]

theorem exec_recv_cons {T : Type} (s : Sys T) (j : Nat) (x : T) (rest : List T)
    (c : MpscSyncSender T) (hj : j < s.subs.length)
    (hfind : s.inner.senders.find? (fun d => decide (d.id = s.subs[j])) = some c)
    (hq : c.queue = x :: rest) :
    Sys.exec T s (Op.recv j) =
      ({ s with inner := { s.inner with
          senders := setQueue T s.inner.senders (s.subs[j]) rest } },
       some (.msg x)) := by
  simp only [Sys.exec, dif_pos hj, hfind, Subscriber.recv, mpscRecv, hq]

theorem execTrace_broadcasts {T : Type} (ms : List T) :
    ∀ (t : Sys T) (i : UniqueId) (q : List T),
      t.pubCount ≠ 0 → i ∈ t.subs → Sys.queueOf T t i = some q →
      (∀ c ∈ t.inner.senders, Sys.receiverAlive T t c.id = true →
        c.queue.length + ms.length ≤ channelCapacity) →
      Sys.queueOf T (Sys.execTrace T t (ms.map Op.broadcast)).1 i = some (q ++ ms) := by
  induction ms with
  | nil =>
    intro t i q hpub hmem hq _
    simpa [Sys.execTrace] using hq
  | cons m ms ih =>
    intro t i q hpub hmem hq hroom
    have hroom1 : ∀ c ∈ t.inner.senders, Sys.receiverAlive T t c.id = true →
        c.queue.length < channelCapacity := by
      intro c hc ha
      have := hroom c hc ha
      simp only [List.length_cons] at this
      omega
    have hb := exec_broadcast_eq t m hpub hroom1
    simp only [List.map_cons, Sys.execTrace, hb]
    rcases queueOf_eq_some hq with ⟨c, hfind, hcid, hcq⟩
    have halive : Sys.receiverAlive T t c.id = true := by
      rw [hcid]
      exact decide_eq_true hmem
    have step := ih { t with inner := { t.inner with
        senders := pushAll T (Sys.receiverAlive T t) m t.inner.senders } } i (q ++ [m])
    simp only at step
    rw [step]
    · simp
    · exact hpub
    · exact hmem
    · show ((pushAll T (Sys.receiverAlive T t) m t.inner.senders).find?
        (fun d => decide (d.id = i))).map (fun c => c.queue) = some (q ++ [m])
      rw [find?_pushAll, hfind]
      simp [halive, hcq]
    · intro c2 hc2 ha2
      rcases List.mem_map.mp hc2 with ⟨c0, hc0, hgc⟩
      have hid0 : c2.id = c0.id := by
        subst hgc
        by_cases h : Sys.receiverAlive T t c0.id = true
        · rw [if_pos h]
        · rw [if_neg h]
      have ha0 : Sys.receiverAlive T t c0.id = true := by
        have : Sys.receiverAlive T t c2.id = true := ha2
        rwa [hid0] at this
      have hlen : c2.queue.length = c0.queue.length + 1 := by
        subst hgc
        rw [if_pos ha0]
        simp
      have := hroom c0 hc0 ha0
      simp only [List.length_cons] at this
      omega

theorem exec_broadcast_frame (T : Type) (t : Sys T) (m : T) :
    (Sys.exec T t (Op.broadcast m)).1.subs = t.subs ∧
    (Sys.exec T t (Op.broadcast m)).1.pubCount = t.pubCount := by
  simp only [Sys.exec]
  split
  · split <;> exact ⟨rfl, rfl⟩
  · exact ⟨rfl, rfl⟩

theorem execTrace_broadcasts_frame (T : Type) (ms : List T) : ∀ t : Sys T,
    (Sys.execTrace T t (ms.map Op.broadcast)).1.subs = t.subs ∧
    (Sys.execTrace T t (ms.map Op.broadcast)).1.pubCount = t.pubCount := by
  induction ms with
  | nil => intro t; exact ⟨rfl, rfl⟩
  | cons m ms ih =>
    intro t
    simp only [List.map_cons, Sys.execTrace]
    rcases ih (Sys.exec T t (Op.broadcast m)).1 with ⟨h1, h2⟩
    rcases exec_broadcast_frame T t m with ⟨h3, h4⟩
    exact ⟨h1.trans h3, h2.trans h4⟩

theorem get_congr_list {α : Type} {l1 l2 : List α} (h : l1 = l2) (j : Nat)
    (h1 : j < l1.length) (h2 : j < l2.length) :
    l1.get ⟨j, h1⟩ = l2.get ⟨j, h2⟩ := by
  subst h
  rfl

/-- C8: the Clone implementation of UniqueId does not produce an equal
copy of UniqueId(n); it advances the value and yields UniqueId(n + 1). -/
theorem uniqueId_clone_advances (n : Nat) :
    UniqueId.clone ⟨n⟩ = ⟨n + 1⟩ ∧ UniqueId.clone ⟨n⟩ ≠ ⟨n⟩ := by
  constructor
  · rfl
  · intro h
    have hv : n + 1 = n := congrArg UniqueId.val h
    omega

theorem uniqueId_clone_advances_witness : UniqueId.clone ⟨5⟩ = ⟨6⟩ :=
  (uniqueId_clone_advances 5).1

/-- C5: broadcasting_channel builds a hub with exactly one registered
endpoint pair, hands the sole inbound endpoint to the returned subscriber
handle, names both handles by the literal initial whatever name the caller
passed, and stores the caller-supplied name on the hub itself. -/
theorem factory_one_pair_initial_names (T : Type) (name : String) :
    (broadcasting_channel T name).1.name = name ∧
    (broadcasting_channel T name).1.senders.length = 1 ∧
    (broadcasting_channel T name).2.1.name = "initial" ∧
    (broadcasting_channel T name).2.2.name = "initial" ∧
    (broadcasting_channel T name).2.2.receiver.id = UniqueId.new ∧
    (broadcasting_channel T name).1.senders.map (fun c => c.id) = [UniqueId.new] ∧
    (broadcasting_channel T name).1.senders.map (fun c => c.queue) =
      [([] : List T)] :=
  ⟨rfl, rfl, rfl, rfl, rfl, rfl, rfl⟩

theorem factory_one_pair_initial_names_witness :
    (broadcasting_channel Nat "x").2.1.name = "initial" :=
  (factory_one_pair_initial_names Nat "x").2.2.1

/-- C2: recv on a subscriber blocks (none) exactly while its inbound
buffer is empty and the sender half is still alive, returns the next
pending message otherwise, and errors exactly when the sender half has
been dropped with no message pending; its only error is the disconnected
condition Error.RecvError. -/
theorem recv_blocks_or_disconnects (T : Type) (q : List T) (alive : Bool) :
    (Subscriber.recv T q alive = none ↔ (q = [] ∧ alive = true)) ∧
    (Subscriber.recv T q alive = some (.error Error.RecvError) ↔
      (q = [] ∧ alive = false)) ∧
    (∀ x rest, q = x :: rest →
      Subscriber.recv T q alive = some (.ok (x, rest))) ∧
    (∀ e, Subscriber.recv T q alive = some (.error e) → e = Error.RecvError) := by
  cases q with
  | nil => cases alive <;> simp [Subscriber.recv, mpscRecv]
  | cons x rest =>
    refine ⟨by simp [Subscriber.recv, mpscRecv],
      by simp [Subscriber.recv, mpscRecv], ?_,
      by simp [Subscriber.recv, mpscRecv]⟩
    intro x2 rest2 h
    cases h
    simp [Subscriber.recv, mpscRecv]

theorem recv_blocks_or_disconnects_witness :
    Subscriber.recv Nat [] false = some (.error Error.RecvError) :=
  (recv_blocks_or_disconnects Nat [] false).2.1.mpr ⟨rfl, rfl⟩

/-- C3: a fan-out in which some registered endpoint has a dropped peer
logs that endpoint (its id appears in the returned failure log), keeps
iterating (every other endpoint with a live peer still receives the
message, the dead ones are left untouched), and reports no error to the
caller: the return value carries only the updated hub and the log, and
under the stated room assumption the call returns (it does not block). -/
theorem broadcast_logs_and_continues (T : Type) (inner : BroadcasterInner T)
    (alive : UniqueId → Bool) (m : T) (d : MpscSyncSender T)
    (hd : d ∈ inner.senders) (hdead : alive d.id = false)
    (hroom : ∀ c ∈ inner.senders, alive c.id = true →
      c.queue.length < channelCapacity) :
    BroadcasterInner.broadcast T inner alive m =
      some ({ inner with senders := pushAll T alive m inner.senders },
        failedIds T alive inner.senders) ∧
    d.id ∈ failedIds T alive inner.senders ∧
    (∀ i c, inner.senders.find? (fun e => decide (e.id = i)) = some c →
      (pushAll T alive m inner.senders).find? (fun e => decide (e.id = i)) =
        some (if alive c.id then { c with queue := c.queue ++ [m] } else c)) := by
  refine ⟨?_, ?_, ?_⟩
  · simp [BroadcasterInner.broadcast,
      broadcastAux_room alive m inner.senders hroom]
  · simp only [failedIds, List.mem_map]
    exact ⟨d, List.mem_filter.mpr ⟨hd, by simp [hdead]⟩, rfl⟩
  · intro i c hfind
    rw [find?_pushAll, hfind]
    rfl

theorem broadcast_logs_and_continues_witness :
    (⟨1⟩ : UniqueId) ∈ failedIds Nat (fun i => decide (i.val = 2))
      [⟨⟨1⟩, []⟩, ⟨⟨2⟩, []⟩] :=
  (broadcast_logs_and_continues Nat ⟨"h", ⟨2⟩, [⟨⟨1⟩, []⟩, ⟨⟨2⟩, []⟩]⟩
    (fun i => decide (i.val = 2)) 7 ⟨⟨1⟩, []⟩ (by decide) (by decide)
    (by decide)).2.1

/-- C1: with subscriber j registered before two consecutive broadcasts on
the same hub, the two messages are appended to the private buffer of j (and
of every live subscriber, since j is arbitrary) exactly once each, in
broadcast order; when the buffer of j started empty, its next two recv
calls return the first then the second message. -/
theorem broadcast_delivers_every_subscriber_in_order (T : Type) (s : Sys T)
    (j : Nat) (m1 m2 : T) (q : List T)
    (hj : j < s.subs.length)
    (hpub : s.pubCount ≠ 0)
    (hq : Sys.queueOf T s (s.subs.get ⟨j, hj⟩) = some q)
    (hroom : ∀ c ∈ s.inner.senders, Sys.receiverAlive T s c.id = true →
      c.queue.length + 2 ≤ channelCapacity) :
    Sys.queueOf T (Sys.execTrace T s [Op.broadcast m1, Op.broadcast m2]).1
        (s.subs.get ⟨j, hj⟩) = some (q ++ [m1, m2]) ∧
    (q = [] →
      (Sys.exec T (Sys.execTrace T s [Op.broadcast m1, Op.broadcast m2]).1
          (Op.recv j)).2 = some (CallResult.msg m1) ∧
      (Sys.exec T (Sys.exec T
          (Sys.execTrace T s [Op.broadcast m1, Op.broadcast m2]).1
          (Op.recv j)).1 (Op.recv j)).2 = some (CallResult.msg m2)) := by
  have hmem : s.subs.get ⟨j, hj⟩ ∈ s.subs := List.get_mem s.subs j hj
  have hroomN : ∀ c ∈ s.inner.senders, Sys.receiverAlive T s c.id = true →
      c.queue.length + ([m1, m2] : List T).length ≤ channelCapacity := by
    simpa using hroom
  have hq2 := execTrace_broadcasts ([m1, m2] : List T) s (s.subs.get ⟨j, hj⟩)
    q hpub hmem hq hroomN
  simp only [List.map_cons, List.map_nil] at hq2
  refine ⟨hq2, ?_⟩
  intro hq0
  subst hq0
  simp only [List.nil_append] at hq2
  have hframe := execTrace_broadcasts_frame T ([m1, m2] : List T) s
  simp only [List.map_cons, List.map_nil] at hframe
  have hsubs : (Sys.execTrace T s [Op.broadcast m1, Op.broadcast m2]).1.subs =
      s.subs := hframe.1
  have hj2 : j < (Sys.execTrace T s [Op.broadcast m1, Op.broadcast m2]).1.subs.length := by
    rw [hsubs]
    exact hj
  have hidx : (Sys.execTrace T s [Op.broadcast m1, Op.broadcast m2]).1.subs.get
      ⟨j, hj2⟩ = s.subs.get ⟨j, hj⟩ := get_congr_list hsubs j hj2 hj
  rcases queueOf_eq_some hq2 with ⟨c2, hfind2, hcid2, hq2q⟩
  have hfind2x : (Sys.execTrace T s [Op.broadcast m1, Op.broadcast m2]).1.inner.senders.find?
      (fun d => decide (d.id =
        (Sys.execTrace T s [Op.broadcast m1, Op.broadcast m2]).1.subs.get ⟨j, hj2⟩)) =
      some c2 := by
    rw [hidx]
    exact hfind2
  have step1 := exec_recv_cons (Sys.execTrace T s [Op.broadcast m1, Op.broadcast m2]).1
    j m1 [m2] c2 hj2 hfind2x hq2q
  constructor
  · rw [step1]
  · rw [step1]
    have hcid2x : c2.id = (Sys.execTrace T s [Op.broadcast m1, Op.broadcast m2]).1.subs.get
        ⟨j, hj2⟩ := by
      rw [hidx]
      exact hcid2
    have hfind3 : (setQueue T
        (Sys.execTrace T s [Op.broadcast m1, Op.broadcast m2]).1.inner.senders
        ((Sys.execTrace T s [Op.broadcast m1, Op.broadcast m2]).1.subs.get ⟨j, hj2⟩)
        [m2]).find?
        (fun d => decide (d.id =
          (Sys.execTrace T s [Op.broadcast m1, Op.broadcast m2]).1.subs.get ⟨j, hj2⟩)) =
        some { c2 with queue := [m2] } := by
      rw [find?_setQueue, hfind2x]
      simp [hcid2x]
    have step2 := exec_recv_cons
      ({ (Sys.execTrace T s [Op.broadcast m1, Op.broadcast m2]).1 with inner :=
        { (Sys.execTrace T s [Op.broadcast m1, Op.broadcast m2]).1.inner with
          senders := setQueue T
            (Sys.execTrace T s [Op.broadcast m1, Op.broadcast m2]).1.inner.senders
            ((Sys.execTrace T s [Op.broadcast m1, Op.broadcast m2]).1.subs.get ⟨j, hj2⟩)
            [m2] } })
      j m2 [] { c2 with queue := [m2] } hj2 hfind3 rfl
    exact congrArg Prod.snd step2

theorem broadcast_delivers_witness :
    (Sys.exec Nat (Sys.exec Nat
        (Sys.execTrace Nat (initSys Nat "t") [Op.broadcast 10, Op.broadcast 5]).1
        (Op.recv 0)).1 (Op.recv 0)).2 = some (CallResult.msg 5) :=
  ((broadcast_delivers_every_subscriber_in_order Nat (initSys Nat "t") 0 10 5 []
    (by decide) (by decide) (by decide) (by decide)).2 rfl).2

/-- C4: the endpoint registered by subscriber clone_as starts with an
empty inbound buffer, and after any further sequence of broadcasts the new
buffer holds exactly those later messages in order: nothing broadcast
before registration is ever replayed to it. -/
theorem cloned_subscriber_starts_empty_no_replay (T : Type) (s : Sys T)
    (j : Nat) (ms : List T)
    (hj : j < s.subs.length)
    (hpub : s.pubCount ≠ 0)
    (hfresh : ∀ c ∈ s.inner.senders, c.id.val ≤ s.inner.last_id.val)
    (hroom : ∀ c ∈ s.inner.senders, c.queue.length + ms.length ≤ channelCapacity)
    (hms : ms.length ≤ channelCapacity) :
    Sys.queueOf T (Sys.exec T s (Op.cloneSub j)).1 s.inner.last_id.next =
      some [] ∧
    Sys.queueOf T (Sys.execTrace T (Sys.exec T s (Op.cloneSub j)).1
        (ms.map Op.broadcast)).1 s.inner.last_id.next = some ms := by
  have hnone : s.inner.senders.find?
      (fun d => decide (d.id = s.inner.last_id.next)) = none := by
    rw [List.find?_eq_none]
    intro c hc
    simp only [decide_eq_true_eq]
    intro he
    have hle := hfresh c hc
    rw [he] at hle
    simp only [UniqueId.next] at hle
    omega
  have hfound : List.find?
      (fun d : MpscSyncSender T => decide (d.id = s.inner.last_id.next))
      (s.inner.senders ++ [{ id := s.inner.last_id.next, queue := [] }]) =
      some { id := s.inner.last_id.next, queue := [] } := by
    rw [List.find?_append, hnone]
    simp
  have hs1 : Sys.exec T s (Op.cloneSub j) =
      ({ s with
         inner := { s.inner with
                    last_id := s.inner.last_id.next,
                    senders := s.inner.senders ++ [⟨s.inner.last_id.next, []⟩] },
         subs := s.subs ++ [s.inner.last_id.next] }, none) := by
    simp only [Sys.exec, if_pos hj, BroadcasterInner.add_receiver]
  have hpart1 : Sys.queueOf T (Sys.exec T s (Op.cloneSub j)).1
      s.inner.last_id.next = some [] := by
    rw [hs1]
    simp [Sys.queueOf, hfound]
  refine ⟨hpart1, ?_⟩
  have hstep := execTrace_broadcasts ms (Sys.exec T s (Op.cloneSub j)).1
    s.inner.last_id.next [] ?hpub ?hmem hpart1 ?hroom
  · simpa using hstep
  · rw [hs1]
    exact hpub
  · rw [hs1]
    exact List.mem_append_right _ (List.mem_singleton.mpr rfl)
  · rw [hs1]
    intro c hc _
    rcases List.mem_append.mp hc with hold | hnew
    · exact hroom c hold
    · rcases List.mem_singleton.mp hnew with rfl
      simpa using hms

theorem cloned_subscriber_witness :
    Sys.queueOf Nat (Sys.execTrace Nat (Sys.exec Nat (initSys Nat "t")
        (Op.cloneSub 0)).1 ([3].map Op.broadcast)).1
      (initSys Nat "t").inner.last_id.next = some [3] :=
  (cloned_subscriber_starts_empty_no_replay Nat (initSys Nat "t") 0 [3]
    (by decide) (by decide) (by decide) (by decide) (by decide)).2

theorem exec_broadcast_map_id (T : Type) (s : Sys T) (m : T) :
    (Sys.exec T s (Op.broadcast m)).1.inner.senders.map (fun c => c.id) =
      s.inner.senders.map (fun c => c.id) := by
  simp only [Sys.exec]
  split
  · split
    · rename_i p hp
      simp only [BroadcasterInner.broadcast] at hp
      rcases Option.map_eq_some'.mp hp with ⟨q0, hq0, hfq⟩
      rw [← hfq]
      exact broadcastAux_map_id (Sys.receiverAlive T s) m
        s.inner.senders q0.1 q0.2 (by rw [hq0])
    · rfl
  · rfl

theorem exec_tryRecv_map_id (T : Type) (s : Sys T) (j : Nat) :
    (Sys.exec T s (Op.tryRecv j)).1.inner.senders.map (fun c => c.id) =
      s.inner.senders.map (fun c => c.id) := by
  simp only [Sys.exec]
  split
  · split
    · split
      · exact setQueue_map_id s.inner.senders _ _
      · rfl
    · rfl
  · rfl

theorem exec_recv_map_id (T : Type) (s : Sys T) (j : Nat) :
    (Sys.exec T s (Op.recv j)).1.inner.senders.map (fun c => c.id) =
      s.inner.senders.map (fun c => c.id) := by
  simp only [Sys.exec]
  split
  · split
    · split
      · exact setQueue_map_id s.inner.senders _ _
      · rfl
      · rfl
    · rfl
  · rfl

theorem exec_tryRecv_frame (T : Type) (s : Sys T) (j : Nat) :
    (Sys.exec T s (Op.tryRecv j)).1.subs = s.subs ∧
    (Sys.exec T s (Op.tryRecv j)).1.pubCount = s.pubCount := by
  simp only [Sys.exec]
  split
  · split
    · split
      · exact ⟨rfl, rfl⟩
      · exact ⟨rfl, rfl⟩
    · exact ⟨rfl, rfl⟩
  · exact ⟨rfl, rfl⟩

theorem exec_recv_frame (T : Type) (s : Sys T) (j : Nat) :
    (Sys.exec T s (Op.recv j)).1.subs = s.subs ∧
    (Sys.exec T s (Op.recv j)).1.pubCount = s.pubCount := by
  simp only [Sys.exec]
  split
  · split
    · split
      · exact ⟨rfl, rfl⟩
      · exact ⟨rfl, rfl⟩
      · exact ⟨rfl, rfl⟩
    · exact ⟨rfl, rfl⟩
  · exact ⟨rfl, rfl⟩

/-- C6: the registry only grows: every call leaves the previously
registered endpoint ids as a prefix of the registry; dropping a subscriber
and cloning a publisher leave the hub record untouched; broadcast leaves
the registered ids unchanged; subscriber clone_as on a live subscriber
appends exactly one new endpoint. -/
theorem registry_only_grows (T : Type) (s : Sys T) (op : Op T)
    (j : Nat) (m : T) :
    (∃ t, (Sys.exec T s op).1.inner.senders.map (fun c => c.id) =
      s.inner.senders.map (fun c => c.id) ++ t) ∧
    (Sys.exec T s (Op.dropSub j)).1.inner = s.inner ∧
    (Sys.exec T s Op.clonePub).1.inner = s.inner ∧
    (Sys.exec T s (Op.broadcast m)).1.inner.senders.map (fun c => c.id) =
      s.inner.senders.map (fun c => c.id) ∧
    (j < s.subs.length →
      (Sys.exec T s (Op.cloneSub j)).1.inner.senders =
        s.inner.senders ++ [{ id := s.inner.last_id.next, queue := [] }]) := by
  refine ⟨?_, rfl, rfl, exec_broadcast_map_id T s m, ?_⟩
  · cases op with
    | clonePub => exact ⟨[], by simp [Sys.exec]⟩
    | dropPub => exact ⟨[], by simp [Sys.exec]⟩
    | dropSub j2 => exact ⟨[], by simp [Sys.exec]⟩
    | broadcast m2 => exact ⟨[], by simp [exec_broadcast_map_id]⟩
    | tryRecv j2 => exact ⟨[], by simp [exec_tryRecv_map_id]⟩
    | recv j2 => exact ⟨[], by simp [exec_recv_map_id]⟩
    | cloneSub j2 =>
      simp only [Sys.exec]
      split
      · exact ⟨[s.inner.last_id.next],
          by simp [BroadcasterInner.add_receiver]⟩
      · exact ⟨[], by simp⟩
  · intro hjlt
    simp only [Sys.exec, if_pos hjlt, BroadcasterInner.add_receiver]

theorem registry_only_grows_witness :
    (Sys.exec Nat (initSys Nat "t") (Op.cloneSub 0)).1.inner.senders =
      (initSys Nat "t").inner.senders ++
        [{ id := (initSys Nat "t").inner.last_id.next, queue := [] }] :=
  (registry_only_grows Nat (initSys Nat "t") Op.clonePub 0 0).2.2.2.2 (by decide)

/-- Structural invariant: each live subscriber owns the receiver half of
a channel whose sender half is registered in the hub (the subscriber
itself holds an Arc to the hub, and the registry is never pruned). -/
def Sys.SubsReg (T : Type) (s : Sys T) : Prop :=
  ∀ i ∈ s.subs, i ∈ s.inner.senders.map (fun c => c.id)

theorem subsReg_exec (T : Type) (s : Sys T) (op : Op T)
    (h : Sys.SubsReg T s) : Sys.SubsReg T (Sys.exec T s op).1 := by
  cases op with
  | clonePub => exact h
  | dropPub => exact h
  | dropSub j =>
    intro i hi
    exact h i ((List.eraseIdx_sublist s.subs j).subset hi)
  | cloneSub j =>
    simp only [Sys.exec]
    split
    · intro i hi
      simp only [BroadcasterInner.add_receiver] at hi ⊢
      simp only [List.map_append]
      rcases List.mem_append.mp hi with hi | hi
      · exact List.mem_append_left _ (h i hi)
      · refine List.mem_append_right _ ?_
        simpa using hi
    · exact h
  | broadcast m =>
    intro i hi
    rw [exec_broadcast_map_id]
    exact h i ((exec_broadcast_frame T s m).1 ▸ hi)
  | tryRecv j =>
    intro i hi
    rw [exec_tryRecv_map_id]
    exact h i ((exec_tryRecv_frame T s j).1 ▸ hi)
  | recv j =>
    intro i hi
    rw [exec_recv_map_id]
    exact h i ((exec_recv_frame T s j).1 ▸ hi)

theorem subsReg_execTrace (T : Type) (ops : List (Op T)) : ∀ s : Sys T,
    Sys.SubsReg T s → Sys.SubsReg T (Sys.execTrace T s ops).1 := by
  induction ops with
  | nil => intro s h; exact h
  | cons op rest ih =>
    intro s h
    exact ih (Sys.exec T s op).1 (subsReg_exec T s op h)

theorem subsReg_init (T : Type) (name : String) :
    Sys.SubsReg T (initSys T name) := by
  intro i hi
  simp only [initSys, broadcasting_channel] at hi ⊢
  simpa using hi

theorem tryRecv_recv_live (T : Type) (s : Sys T) (j : Nat)
    (hreg : Sys.SubsReg T s) (hj : j < s.subs.length) :
    (Sys.exec T s (Op.tryRecv j)).2 ≠
      some (CallResult.err (Error.TryRecvError TryRecvError.Disconnected)) ∧
    ∀ e, (Sys.exec T s (Op.recv j)).2 ≠ some (CallResult.err e) := by
  have hmem : s.subs[j] ∈ s.subs := List.getElem_mem hj
  have hid := hreg _ hmem
  rcases List.mem_map.mp hid with ⟨c, hc, hcid⟩
  have hsome : (s.inner.senders.find?
      (fun d => decide (d.id = s.subs[j]))).isSome := by
    rw [List.find?_isSome]
    exact ⟨c, hc, by simp [hcid]⟩
  rcases Option.isSome_iff_exists.mp hsome with ⟨c2, hfind⟩
  have halive : Sys.hubAlive T s = true := by
    simp only [Sys.hubAlive, decide_eq_true_eq]
    right
    exact List.ne_nil_of_length_pos (Nat.lt_of_le_of_lt (Nat.zero_le j) hj)
  constructor
  · simp only [Sys.exec, dif_pos hj, hfind]
    cases hcq : c2.queue with
    | cons x rest => simp [Subscriber.try_recv, mpscTryRecv, hcq]
    | nil => simp [Subscriber.try_recv, mpscTryRecv, hcq, halive]
  · intro e
    simp only [Sys.exec, dif_pos hj, hfind]
    cases hcq : c2.queue with
    | cons x rest => simp [Subscriber.recv, mpscRecv, hcq]
    | nil => simp [Subscriber.recv, mpscRecv, hcq, halive]

/-- C10: on every state reachable from the factory call, a live
subscriber keeps the hub (and with it the sender half of its own channel)
alive, so its try_recv returns a message or the empty condition, never the
disconnected condition, and its recv never returns an error. -/
theorem live_subscriber_never_disconnected (T : Type) (name : String)
    (ops : List (Op T)) (j : Nat)
    (hj : j < (Sys.execTrace T (initSys T name) ops).1.subs.length) :
    (Sys.exec T (Sys.execTrace T (initSys T name) ops).1 (Op.tryRecv j)).2 ≠
      some (CallResult.err (Error.TryRecvError TryRecvError.Disconnected)) ∧
    ∀ e, (Sys.exec T (Sys.execTrace T (initSys T name) ops).1 (Op.recv j)).2 ≠
      some (CallResult.err e) :=
  tryRecv_recv_live T (Sys.execTrace T (initSys T name) ops).1 j
    (subsReg_execTrace T ops (initSys T name) (subsReg_init T name)) hj

theorem live_subscriber_never_disconnected_witness :
    (Sys.exec Nat (Sys.execTrace Nat (initSys Nat "t")
        [Op.dropPub, Op.broadcast 4]).1 (Op.tryRecv 0)).2 ≠
      some (CallResult.err (Error.TryRecvError TryRecvError.Disconnected)) :=
  (live_subscriber_never_disconnected Nat "t" [Op.dropPub, Op.broadcast 4] 0
    (by decide)).1

/-- Id invariant of the hub: the registered ids are exactly 1..n in
registration order and last_id holds the count of issued ids. -/
def BroadcasterInner.IdInv (T : Type) (inner : BroadcasterInner T) : Prop :=
  inner.senders.map (fun c => c.id.val) =
    List.range' 1 inner.senders.length ∧
  inner.last_id.val = inner.senders.length

theorem map_val_of_map_id {T : Type} {l1 l2 : List (MpscSyncSender T)}
    (h : l1.map (fun c => c.id) = l2.map (fun c => c.id)) :
    l1.map (fun c => c.id.val) = l2.map (fun c => c.id.val) := by
  have h2 := congrArg (List.map UniqueId.val) h
  simpa [List.map_map, Function.comp] using h2

theorem idInv_of_map_id {T : Type} {i1 i2 : BroadcasterInner T}
    (hmap : i2.senders.map (fun c => c.id) = i1.senders.map (fun c => c.id))
    (hlast : i2.last_id = i1.last_id)
    (h : BroadcasterInner.IdInv T i1) : BroadcasterInner.IdInv T i2 := by
  rcases h with ⟨h1, h2⟩
  have hval := map_val_of_map_id hmap
  have hlen : i2.senders.length = i1.senders.length := by
    have := congrArg List.length hmap
    simpa using this
  exact ⟨by rw [hval, hlen, h1], by rw [hlast, hlen, h2]⟩

theorem exec_broadcast_last_id (T : Type) (s : Sys T) (m : T) :
    (Sys.exec T s (Op.broadcast m)).1.inner.last_id = s.inner.last_id := by
  simp only [Sys.exec]
  split
  · split
    · rename_i p hp
      simp only [BroadcasterInner.broadcast] at hp
      rcases Option.map_eq_some'.mp hp with ⟨q0, hq0, hfq⟩
      rw [← hfq]
    · rfl
  · rfl

theorem exec_tryRecv_last_id (T : Type) (s : Sys T) (j : Nat) :
    (Sys.exec T s (Op.tryRecv j)).1.inner.last_id = s.inner.last_id := by
  simp only [Sys.exec]
  split
  · split
    · split
      · rfl
      · rfl
    · rfl
  · rfl

theorem exec_recv_last_id (T : Type) (s : Sys T) (j : Nat) :
    (Sys.exec T s (Op.recv j)).1.inner.last_id = s.inner.last_id := by
  simp only [Sys.exec]
  split
  · split
    · split
      · rfl
      · rfl
      · rfl
    · rfl
  · rfl

theorem idInv_exec (T : Type) (s : Sys T) (op : Op T)
    (h : BroadcasterInner.IdInv T s.inner) :
    BroadcasterInner.IdInv T (Sys.exec T s op).1.inner := by
  cases op with
  | clonePub => exact h
  | dropPub => exact h
  | dropSub j => exact h
  | broadcast m =>
    exact idInv_of_map_id (exec_broadcast_map_id T s m)
      (exec_broadcast_last_id T s m) h
  | tryRecv j =>
    exact idInv_of_map_id (exec_tryRecv_map_id T s j)
      (exec_tryRecv_last_id T s j) h
  | recv j =>
    exact idInv_of_map_id (exec_recv_map_id T s j)
      (exec_recv_last_id T s j) h
  | cloneSub j =>
    simp only [Sys.exec]
    split
    · rcases h with ⟨h1, h2⟩
      constructor
      · simp only [BroadcasterInner.add_receiver, List.map_append,
          List.length_append, List.map_cons, List.map_nil, List.length_cons,
          List.length_nil]
        rw [h1, List.range'_concat]
        simp [UniqueId.next, h2, Nat.add_comm]
      · simp [BroadcasterInner.add_receiver, UniqueId.next, h2]
    · exact h

theorem idInv_execTrace (T : Type) (ops : List (Op T)) : ∀ s : Sys T,
    BroadcasterInner.IdInv T s.inner →
    BroadcasterInner.IdInv T (Sys.execTrace T s ops).1.inner := by
  induction ops with
  | nil => intro s h; exact h
  | cons op rest ih =>
    intro s h
    exact ih (Sys.exec T s op).1 (idInv_exec T s op h)

theorem idInv_init (T : Type) (name : String) :
    BroadcasterInner.IdInv T (initSys T name).inner :=
  ⟨rfl, rfl⟩

/-- C7: the factory issues id 1 to the initial endpoint pair; on every
reachable hub state the registered ids are pairwise strictly increasing,
and the next register_new_endpoint call issues last issued + 1, strictly
greater than every previously issued id. -/
theorem issued_ids_strictly_increasing (T : Type) (name : String)
    (ops : List (Op T)) :
    ((broadcasting_channel T name).1.senders.map (fun c => c.id.val) = [1] ∧
     (broadcasting_channel T name).1.last_id.val = 1) ∧
    List.Pairwise (· < ·)
      ((Sys.execTrace T (initSys T name) ops).1.inner.senders.map
        (fun c => c.id.val)) ∧
    (BroadcasterInner.add_receiver T
        (Sys.execTrace T (initSys T name) ops).1.inner).2.id.val =
      (Sys.execTrace T (initSys T name) ops).1.inner.last_id.val + 1 ∧
    (∀ c ∈ (Sys.execTrace T (initSys T name) ops).1.inner.senders,
      c.id.val < (BroadcasterInner.add_receiver T
        (Sys.execTrace T (initSys T name) ops).1.inner).2.id.val) := by
  rcases idInv_execTrace T ops (initSys T name) (idInv_init T name) with ⟨h1, h2⟩
  refine ⟨⟨rfl, rfl⟩, ?_, rfl, ?_⟩
  · rw [h1]
    exact List.pairwise_lt_range' 1 _
  · intro c hc
    have hmem : c.id.val ∈ List.range' 1
        (Sys.execTrace T (initSys T name) ops).1.inner.senders.length := by
      rw [← h1]
      exact List.mem_map.mpr ⟨c, hc, rfl⟩
    rw [List.mem_range'_1] at hmem
    have hnew : (BroadcasterInner.add_receiver T
        (Sys.execTrace T (initSys T name) ops).1.inner).2.id.val =
        (Sys.execTrace T (initSys T name) ops).1.inner.senders.length + 1 := by
      simp [BroadcasterInner.add_receiver, UniqueId.next, h2]
    rw [hnew]
    omega

theorem issued_ids_witness :
    (⟨⟨1⟩, ([] : List Nat)⟩ : MpscSyncSender Nat).id.val <
      (BroadcasterInner.add_receiver Nat
        (Sys.execTrace Nat (initSys Nat "t") [Op.cloneSub 0]).1.inner).2.id.val :=
  (issued_ids_strictly_increasing Nat "t" [Op.cloneSub 0]).2.2.2
    ⟨⟨1⟩, []⟩ (by decide)

theorem try_recv_error_shape (T : Type) (q : List T) (alive : Bool)
    (e : Error T) (h : Subscriber.try_recv T q alive = .error e) :
    ∃ e2, e = Error.TryRecvError e2 := by
  cases q with
  | cons x rest => simp [Subscriber.try_recv, mpscTryRecv] at h
  | nil =>
    cases alive <;> simp [Subscriber.try_recv, mpscTryRecv] at h <;>
      exact ⟨_, h.symm⟩

theorem recv_error_shape (T : Type) (q : List T) (alive : Bool)
    (e : Error T) (h : Subscriber.recv T q alive = some (.error e)) :
    e = Error.RecvError := by
  cases q with
  | cons x rest => simp [Subscriber.recv, mpscRecv] at h
  | nil =>
    cases alive <;> simp [Subscriber.recv, mpscRecv] at h
    exact h.symm

theorem exec_no_noReceiver (T : Type) (s : Sys T) (op : Op T) :
    (Sys.exec T s op).2 ≠ some (CallResult.err Error.NoReceiver) := by
  cases op with
  | clonePub => simp [Sys.exec]
  | dropPub => simp [Sys.exec]
  | dropSub j => simp [Sys.exec]
  | cloneSub j =>
    simp only [Sys.exec]
    split <;> simp
  | broadcast m =>
    simp only [Sys.exec]
    split
    · split <;> simp
    · simp
  | tryRecv j =>
    simp only [Sys.exec]
    split
    · split
      · split
        · simp
        · rename_i e he
          rcases try_recv_error_shape T _ _ e he with ⟨e2, rfl⟩
          simp
      · simp
    · simp
  | recv j =>
    simp only [Sys.exec]
    split
    · split
      · split
        · simp
        · rename_i e he
          rcases recv_error_shape T _ _ e he with rfl
          simp
        · simp
      · simp
    · simp

theorem execTrace_no_noReceiver (T : Type) (ops : List (Op T)) :
    ∀ s : Sys T, ∀ r ∈ (Sys.execTrace T s ops).2,
      r ≠ CallResult.err Error.NoReceiver := by
  induction ops with
  | nil =>
    intro s r hr
    simp [Sys.execTrace] at hr
  | cons op rest ih =>
    intro s r hr
    simp only [Sys.execTrace] at hr
    cases hx : (Sys.exec T s op).2 with
    | none =>
      rw [hx] at hr
      exact ih _ r hr
    | some x =>
      rw [hx] at hr
      rcases List.mem_cons.mp hr with rfl | hr
      · intro hEq
        exact exec_no_noReceiver T s op (hEq ▸ hx)
      · exact ih _ r hr

/-- C9: over every sequence of public API calls starting from the factory,
no call ever returns Error.NoReceiver: no public path constructs that
variant. -/
theorem no_call_returns_noReceiver (T : Type) (name : String)
    (ops : List (Op T)) :
    ∀ r ∈ (Sys.execTrace T (initSys T name) ops).2,
      r ≠ CallResult.err Error.NoReceiver :=
  execTrace_no_noReceiver T ops (initSys T name)

theorem no_call_returns_noReceiver_witness :
    (CallResult.err (Error.TryRecvError TryRecvError.Empty) : CallResult Nat) ≠
      CallResult.err Error.NoReceiver :=
  no_call_returns_noReceiver Nat "t" [Op.tryRecv 0] _ (by decide)

end SimpleBroadcaster
